import Mathlib

/-!
Verification of the TSP evolutionary solver (`tsp_solver.py`).

The development shallowly embeds the data model and operations of the
repository: the `TSPProblem` encoding (cities-to-visit list, permutation
decoding, tour-length fitness of `TSPProblem._evaluate`), the experiment
orchestration of `TSPSolver.compare_algorithms`, and the two solver entry
points `solve_with_genetic_algorithm` / `solve_with_modified_ga`.

The genetic-algorithm machinery itself (sampling, order crossover,
inversion mutation, duplicate elimination, the generational loop) lives in
the external pymoo framework, whose code is not part of this repository;
those parts are modelled from the specification (they are marked
`Modelled from the spec:` below) with all randomness routed through an
explicit seeded generator, as the spec requires.

Conventions: Python floats are embedded as rationals; Python lists as
Lean lists; Python `int` as `Int` where signedness matters (city indices
coming from permutations are naturals).  Python indexing raising
`IndexError` is embedded either with `Option` (where failure behaviour is
at issue) or totalised with default values under hypotheses that keep the
defaults unexercised.
-/

namespace TSP

/-- `distance_matrix[i][j]` lookup (`self.distance_matrix[i][j]` in the
source).  Totalised with default `0`; theorems that depend on entries keep
indices in range so the default is never exercised. -/
def distance (D : List (List ℚ)) (i j : ℕ) : ℚ :=
  (D.getD i []).getD j 0

/-- `[i for i in range(self.n_cities) if i != start_city]`
(`TSPProblem.__init__`, line 40), for a nonnegative start index. -/
def citiesToVisit (startCity : ℕ) (nCities : ℕ) : List ℕ :=
  (List.range nCities).filter (fun i => i ≠ startCity)

/-- The same comprehension with the start city as a Python `int`
(`start_city` may be any integer; the constructor never validates it). -/
def citiesToVisitZ (startCity : ℤ) (nCities : ℕ) : List ℕ :=
  (List.range nCities).filter (fun i => (i : ℤ) ≠ startCity)

theorem citiesToVisitZ_coe (s n : ℕ) : citiesToVisitZ (s : ℤ) n = citiesToVisit s n := by
  simp [citiesToVisitZ, citiesToVisit]

/-- `tour = [self.cities_to_visit[int(i)] for i in x]` (line 58), totalised
with default `0`; used where the permutation is known to be in range. -/
def decodeD (cv : List ℕ) (x : List ℕ) : List ℕ :=
  x.map (fun i => cv.getD i 0)

/-- Python list indexing `l[i]` for an arbitrary `int` index: negative
indices count from the end; out-of-range indices raise (`none`). -/
def pyGet (l : List α) (i : ℤ) : Option α :=
  let idx : ℤ := if 0 ≤ i then i else (l.length : ℤ) + i
  if 0 ≤ idx ∧ idx < (l.length : ℤ) then l.get? idx.toNat else none

/-- The comprehension `[self.cities_to_visit[int(i)] for i in x]` with
faithful Python indexing: evaluated left to right, the first out-of-range
index raises an `IndexError` (embedded as `none`). -/
def decodePy (cv : List ℕ) : List ℤ → Option (List ℕ)
  | [] => some []
  | i :: rest =>
    match pyGet cv i, decodePy cv rest with
    | some c, some cs => some (c :: cs)
    | _, _ => none

/-- The consecutive-pairs loop of `TSPProblem._evaluate` (lines 67-68):
`for i in range(len(tour) - 1): total += D[tour[i]][tour[i+1]]`. -/
def consecSum (D : List (List ℚ)) : List ℕ → ℚ
  | a :: b :: rest => distance D a b + consecSum D (b :: rest)
  | _ => 0

/-- The body of `TSPProblem._evaluate` (lines 60-73): distance from the
start city to `tour[0]`, plus consecutive distances, plus the distance
from `tour[-1]` back to the start city.  (On an empty tour the source
raises an `IndexError`; the claims only use nonempty tours.) -/
def tourCost (D : List (List ℚ)) (startCity : ℕ) (tour : List ℕ) : ℚ :=
  distance D startCity (tour.headD 0) + consecSum D tour
    + distance D (tour.getLastD 0) startCity

/-- `TSPProblem` (lines 27-47): the fields set by `__init__`. -/
structure TSPProblem where
  distance_matrix : List (List ℚ)
  start_city : ℕ
  cities_to_visit : List ℕ
  n_var : ℕ
deriving DecidableEq

/-- `TSPProblem.__init__(distance_matrix, start_city)` for a nonnegative
start index: `n_cities = len(distance_matrix)`, `cities_to_visit`
excludes the start city, `n_var = len(cities_to_visit)`. -/
def TSPProblem.make (D : List (List ℚ)) (startCity : ℕ) : TSPProblem :=
  let cv := citiesToVisit startCity D.length
  ⟨D, startCity, cv, cv.length⟩

/-- `TSPProblem._evaluate` (lines 49-73): decode the permutation into
actual city indices, then sum the closed-tour distances. -/
def TSPProblem.evaluate (p : TSPProblem) (x : List ℕ) : ℚ :=
  tourCost p.distance_matrix p.start_city (decodeD p.cities_to_visit x)

/-- Modelled from the spec: the tour length as the spec words it —
"sums `distance(tour[k], tour[k+1])` for all consecutive pairs including
the implicit closing edge" — as one fold over the closed tour. -/
def tourLengthSpec (D : List (List ℚ)) (tour : List ℕ) : ℚ :=
  ((tour.zip tour.tail).map (fun pr => distance D pr.1 pr.2)).sum

/-! ### The evolutionary engine, modelled from the spec

The source outsources the GA machinery to the pymoo framework
(`GA`, `PermutationRandomSampling`, `OrderCrossover`, `InversionMutation`,
`minimize`), whose implementation is not part of this repository.  The
definitions below are `Modelled from the spec:` sections 4.3-4.4 — a
seeded random source, unbiased permutation sampling, order crossover,
inversion mutation, duplicate elimination, tournament selection pressure,
elitist best-so-far tracking, a fixed generation budget, and fail-fast
configuration checks. -/

/-- Modelled from the spec: the single seeded random source every
operator draws from (spec 4.4, 9: "all randomness must route through one
seeded source").  A linear congruential generator on naturals. -/
structure RNG where
  seed : ℕ
deriving DecidableEq

/-- One step of the generator: the next raw value and the next state. -/
def RNG.next (r : RNG) : ℕ × RNG :=
  let s := (r.seed * 1103515245 + 12345) % 2147483648
  (s, ⟨s⟩)

/-- A draw below `n` (for `n > 0`), threading the generator state. -/
def RNG.natLt (r : RNG) (n : ℕ) : ℕ × RNG :=
  let v := r.next
  (v.1 % n, v.2)

/-- Modelled from the spec: a biased coin with probability `p` (spec 4.3:
crossover applies "with probability `p_c`", mutation "with per-individual
probability `p_m`"). -/
def RNG.coin (r : RNG) (p : ℚ) : Bool × RNG :=
  let v := r.natLt 1000000
  (decide ((v.1 : ℚ) < p * 1000000), v.2)

/-- Modelled from the spec: unbiased shuffle by repeatedly drawing a
random element of the remaining pool (spec 4.3 Sampling: "Fisher-Yates or
equivalent unbiased shuffle").  The fuel argument equals the pool length
at every call. -/
def drawAll : ℕ → List ℕ → RNG → List ℕ × RNG
  | 0, _, r => ([], r)
  | _ + 1, [], r => ([], r)
  | fuel + 1, a :: pool, r =>
    let j := r.natLt (a :: pool).length
    let x := (a :: pool).getD j.1 0
    let rest := drawAll fuel ((a :: pool).eraseIdx j.1) j.2
    (x :: rest.1, rest.2)

/-- Modelled from the spec: `PermutationRandomSampling` — one uniformly
random permutation of `0..n-1`. -/
def randPerm (n : ℕ) (r : RNG) : List ℕ × RNG :=
  drawAll n (List.range n) r

/-- Modelled from the spec: `pop_size` independent random permutations. -/
def sampleMany (n : ℕ) : ℕ → RNG → List (List ℕ) × RNG
  | 0, r => ([], r)
  | k + 1, r =>
    let p := randPerm n r
    let rest := sampleMany n k p.2
    (p.1 :: rest.1, rest.2)

/-- Modelled from the spec: the child permutation of order crossover
(spec 4.3): copy the contiguous segment `a[i..j]` of parent `a` verbatim
into the same positions, then fill the remaining positions with parent
`b`'s elements in parent-`b` order, skipping values already placed. -/
def oxChild (a b : List ℕ) (i j : ℕ) : List ℕ :=
  let seg := (a.drop i).take (j + 1 - i)
  let fill := b.filter (fun v => !(seg.contains v))
  fill.take i ++ seg ++ fill.drop i

/-- Modelled from the spec: `InversionMutation` — reverse the elements
between two positions (inclusive). -/
def invertSegment (x : List ℕ) (i j : ℕ) : List ℕ :=
  x.take i ++ ((x.drop i).take (j + 1 - i)).reverse ++ x.drop (j + 1)

/-- An individual: a permutation plus its cached fitness (spec 3). -/
structure Individual where
  perm : List ℕ
  fitness : ℚ
deriving DecidableEq

/-- Evaluate a permutation into an individual via the problem's fitness
function (`TSPProblem._evaluate`). -/
def mkIndividual (p : TSPProblem) (x : List ℕ) : Individual :=
  ⟨x, p.evaluate x⟩

/-- `PermutationRandomSampling` marker (the only sampling the source
configures). -/
inductive SamplingOp
  | permutationRandom
deriving DecidableEq

/-- The argument tuple of the source's `GA(...)` constructor calls
(lines 116-122 and 187-193): population size, sampling operator,
`OrderCrossover(prob=...)`, `InversionMutation(prob=...)`,
`eliminate_duplicates`. -/
structure GAAlgorithm where
  pop_size : ℕ
  sampling : SamplingOp
  crossover_prob : ℚ
  mutation_prob : ℚ
  eliminate_duplicates : Bool
deriving DecidableEq

/-- Modelled from the spec: binary-tournament selection pressure (spec
4.4: "any selection pressure scheme is acceptable as long as fitter
individuals are more likely to be chosen"). -/
def tournamentPick (pop : List Individual) (r : RNG) : Individual × RNG :=
  let a := r.natLt pop.length
  let b := a.2.natLt pop.length
  let x := pop.getD a.1 ⟨[], 0⟩
  let y := pop.getD b.1 ⟨[], 0⟩
  (if x.fitness ≤ y.fitness then x else y, b.2)

/-- Modelled from the spec: produce one child — select two parents, apply
order crossover with probability `crossover_prob` (else copy the parent),
apply inversion mutation with probability `mutation_prob`, re-evaluate. -/
def makeChild (p : TSPProblem) (alg : GAAlgorithm) (pop : List Individual)
    (r : RNG) : Individual × RNG :=
  let t1 := tournamentPick pop r
  let t2 := tournamentPick pop t1.2
  let c := t2.2.coin alg.crossover_prob
  let i1 := c.2.natLt p.n_var
  let j1 := i1.2.natLt p.n_var
  let childPerm :=
    if c.1 then oxChild t1.1.perm t2.1.perm i1.1 j1.1 else t1.1.perm
  let m := j1.2.coin alg.mutation_prob
  let i2 := m.2.natLt p.n_var
  let j2 := i2.2.natLt p.n_var
  let finalPerm := if m.1 then invertSegment childPerm i2.1 j2.1 else childPerm
  (mkIndividual p finalPerm, j2.2)

/-- Modelled from the spec: `k` children for the next generation. -/
def makeChildren (p : TSPProblem) (alg : GAAlgorithm) (pop : List Individual) :
    ℕ → RNG → List Individual × RNG
  | 0, r => ([], r)
  | k + 1, r =>
    let c := makeChild p alg pop r
    let rest := makeChildren p alg pop k c.2
    (c.1 :: rest.1, rest.2)

/-- Modelled from the spec: duplicate elimination (spec 4.3) — an
individual whose permutation equals an already-retained one is replaced
by a freshly sampled random individual, re-evaluated. -/
def dedupPass (p : TSPProblem) : List Individual → List (List ℕ) → RNG →
    List Individual × RNG
  | [], _, r => ([], r)
  | ind :: rest, seen, r =>
    let f := randPerm p.n_var r
    let kept := if seen.contains ind.perm then mkIndividual p f.1 else ind
    let r1 := if seen.contains ind.perm then f.2 else r
    let tail := dedupPass p rest (kept.perm :: seen) r1
    (kept :: tail.1, tail.2)

/-- Modelled from the spec: elitist best-so-far tracking — fold the
population against the current best (lower fitness wins). -/
def bestOf (pop : List Individual) (cur : Individual) : Individual :=
  pop.foldl (fun b ind => if ind.fitness < b.fitness then ind else b) cur

/-- The engine's loop state: current population, best-so-far, generator. -/
structure EngineState where
  pop : List Individual
  best : Individual
  rng : RNG
deriving DecidableEq

/-- Modelled from the spec: one generation — reproduce (selection,
crossover, mutation), optionally eliminate duplicates, update the
best-so-far (spec 4.4 Selecting/Reproducing). -/
def genStep (p : TSPProblem) (alg : GAAlgorithm) (st : EngineState) :
    EngineState :=
  let ch := makeChildren p alg st.pop alg.pop_size st.rng
  let dd := if alg.eliminate_duplicates then dedupPass p ch.1 [] ch.2
            else ch
  ⟨dd.1, bestOf dd.1 st.best, dd.2⟩

/-- Modelled from the spec: the generational loop under the sole
termination criterion, a fixed generation budget (spec 4.4). -/
def evolveLoop (p : TSPProblem) (alg : GAAlgorithm) :
    ℕ → EngineState → EngineState
  | 0, st => st
  | k + 1, st => evolveLoop p alg k (genStep p alg st)

/-- The error taxonomy relevant to the solver runs (spec 7). -/
inductive GAError
  | configuration
deriving DecidableEq

/-- The `res` record of `pymoo.optimize.minimize`: best permutation
(`res.X`) and its fitness (`res.F[0]`). -/
structure MinimizeResult where
  X : List ℕ
  F : ℚ
deriving DecidableEq

/-- Modelled from the spec: `minimize(problem, algorithm, termination,
seed)` — fail fast with a Configuration error on malformed input (empty
distance matrix, `pop_size < 2`, `n_gen < 1`) before any generation runs
(spec 4.4), otherwise sample the initial population from the seed and run
the generational loop, emitting the best individual found. -/
def minimize (problem : TSPProblem) (algorithm : GAAlgorithm)
    (termination : ℕ) (seed : ℕ) : Except GAError MinimizeResult :=
  if problem.distance_matrix.length = 0 ∨ algorithm.pop_size < 2 ∨
      termination < 1 then
    .error .configuration
  else
    let s := sampleMany problem.n_var algorithm.pop_size ⟨seed⟩
    let pop0 := s.1.map (mkIndividual problem)
    let st0 : EngineState := ⟨pop0, bestOf pop0 (pop0.headD ⟨[], 0⟩), s.2⟩
    let fin := evolveLoop problem algorithm termination st0
    .ok ⟨fin.best.perm, fin.best.fitness⟩

/-- The result record built by both solver entry points (lines 143-150
and 214-221): algorithm label, start city, complete tour, best distance,
generation count.  (The wall-clock field is real time and not embedded.) -/
structure RunResult where
  algorithm : String
  start_city : ℕ
  tour : List ℕ
  distance : ℚ
  generations : ℕ
deriving DecidableEq

/-- Generations performed by a finished run: none when the run failed. -/
def generationsExecuted : Except GAError RunResult → ℕ
  | .error _ => 0
  | .ok r => r.generations

/-- pymoo's default crossover probability for `OrderCrossover()`. -/
def orderCrossoverDefaultProb : ℚ := 9 / 10

/-- pymoo's default mutation probability for `InversionMutation()`. -/
def inversionMutationDefaultProb : ℚ := 1

/-- `TSPSolver.solve_with_genetic_algorithm` (lines 94-157): build the
problem, configure `GA` with permutation sampling, `OrderCrossover()`,
`InversionMutation()` and duplicate elimination, run `minimize` with
seed 42, decode `res.X` through `cities_to_visit`, and wrap the complete
tour `[start_city] + best_tour + [start_city]` in a result record. -/
def solve_with_genetic_algorithm (D : List (List ℚ))
    (start_city pop_size n_gen : ℕ) : Except GAError RunResult :=
  let problem := TSPProblem.make D start_city
  let algorithm : GAAlgorithm :=
    ⟨pop_size, .permutationRandom, orderCrossoverDefaultProb,
      inversionMutationDefaultProb, true⟩
  let termination := n_gen
  match minimize problem algorithm termination 42 with
  | .error e => .error e
  | .ok res =>
    let best_tour := decodeD problem.cities_to_visit res.X
    let complete_tour := start_city :: best_tour ++ [start_city]
    .ok ⟨"Genetic Algorithm (GA)", start_city, complete_tour, res.F, n_gen⟩

/-- `TSPSolver.solve_with_modified_ga` (lines 159-228): the same pipeline
with `OrderCrossover(prob=0.95)`, `InversionMutation(prob=0.2)`, seed 123
and the variant label. -/
def solve_with_modified_ga (D : List (List ℚ))
    (start_city pop_size n_gen : ℕ) : Except GAError RunResult :=
  let problem := TSPProblem.make D start_city
  let algorithm : GAAlgorithm :=
    ⟨pop_size, .permutationRandom, 95 / 100, 2 / 10, true⟩
  let termination := n_gen
  match minimize problem algorithm termination 123 with
  | .error e => .error e
  | .ok res =>
    let best_tour := decodeD problem.cities_to_visit res.X
    let complete_tour := start_city :: best_tour ++ [start_city]
    .ok ⟨"Modified Genetic Algorithm (GA-2)", start_city, complete_tour,
      res.F, n_gen⟩

/-- Modelled from the spec: the parameter tuple in which the spec says the
two named configurations may differ — "differing only in crossover
probability, mutation probability, and random seed" (plus the label of the
result record). -/
structure GAParams where
  crossover_prob : ℚ
  mutation_prob : ℚ
  seed : ℕ
  label : String
deriving DecidableEq

/-- Modelled from the spec: one parameterized solver covering both named
configurations (spec 9: "treat both as instances of one parameterized
EvolutionEngine rather than two distinct algorithms"). -/
def genericSolve (par : GAParams) (D : List (List ℚ))
    (start_city pop_size n_gen : ℕ) : Except GAError RunResult :=
  let problem := TSPProblem.make D start_city
  let algorithm : GAAlgorithm :=
    ⟨pop_size, .permutationRandom, par.crossover_prob, par.mutation_prob,
      true⟩
  match minimize problem algorithm n_gen par.seed with
  | .error e => .error e
  | .ok res =>
    let best_tour := decodeD problem.cities_to_visit res.X
    .ok ⟨par.label, start_city, start_city :: best_tour ++ [start_city],
      res.F, n_gen⟩

/-- One row of `compare_algorithms`' nested result dictionary:
`results[start_city] = {'GA': ga_result, 'GA2': ga2_result}`. -/
structure CompareEntry where
  start_city : ℕ
  ga : RunResult
  ga2 : RunResult
deriving DecidableEq

/-- The loop body of `TSPSolver.compare_algorithms` (lines 230-264),
parameterized by the two per-city solver calls it makes.  The Python loop
has no exception handling, so a raising call propagates: this is embedded
by the short-circuiting `Except` threading below.  (The solver calls can
raise in the source — e.g. an out-of-range start city makes `_evaluate`
raise an `IndexError` mid-run.) -/
def compareLoop (runGA runGA2 : ℕ → Except GAError RunResult) :
    List ℕ → Except GAError (List CompareEntry)
  | [] => .ok []
  | c :: rest =>
    match runGA c with
    | .error e => .error e
    | .ok r1 =>
      match runGA2 c with
      | .error e => .error e
      | .ok r2 =>
        match compareLoop runGA runGA2 rest with
        | .error e => .error e
        | .ok tail => .ok (⟨c, r1, r2⟩ :: tail)

/-- `TSPSolver.compare_algorithms(start_cities, pop_size, n_gen)`: run
both solvers for every starting city and collect the nested results. -/
def compare_algorithms (D : List (List ℚ)) (start_cities : List ℕ)
    (pop_size n_gen : ℕ) : Except GAError (List CompareEntry) :=
  compareLoop (fun c => solve_with_genetic_algorithm D c pop_size n_gen)
    (fun c => solve_with_modified_ga D c pop_size n_gen) start_cities

/-- Two run outcomes agree: both fail identically, or both succeed with
the same best tour, best distance and generation count. -/
def sameOutcome : Except GAError RunResult → Except GAError RunResult → Prop
  | .ok r1, .ok r2 =>
    r1.tour = r2.tour ∧ r1.distance = r2.distance ∧
      r1.generations = r2.generations
  | .error e1, .error e2 => e1 = e2
  | _, _ => False

/-! ### Helper lemmas -/

theorem tourLengthSpec_eq_consecSum (D : List (List ℚ)) :
    ∀ l : List ℕ, tourLengthSpec D l = consecSum D l := by
  intro l
  match l with
  | [] => rfl
  | [a] => rfl
  | a :: b :: rest =>
    have ih := tourLengthSpec_eq_consecSum D (b :: rest)
    simp only [tourLengthSpec, List.zip, List.tail] at ih ⊢
    simp [List.zipWith, List.map, consecSum, ih]

theorem consecSum_append_last (D : List (List ℚ)) :
    ∀ (l : List ℕ) (a : ℕ), l ≠ [] →
      consecSum D (l ++ [a]) = consecSum D l + distance D (l.getLastD 0) a := by
  intro l a hl
  match l with
  | [x] => simp [consecSum]
  | x :: y :: rest =>
    have ih := consecSum_append_last D (y :: rest) a (by simp)
    show distance D x y + consecSum D ((y :: rest) ++ [a]) =
      distance D x y + consecSum D (y :: rest) +
        distance D ((x :: y :: rest).getLastD 0) a
    rw [ih]
    simp [List.getLastD_cons]
    ring

theorem tourCost_eq_closed (D : List (List ℚ)) (s : ℕ) (t : List ℕ)
    (ht : t ≠ []) : tourCost D s t = tourLengthSpec D (s :: t ++ [s]) := by
  match t with
  | c :: rest =>
    rw [tourLengthSpec_eq_consecSum]
    have h1 : consecSum D (s :: (c :: rest) ++ [s]) =
        distance D s c + consecSum D ((c :: rest) ++ [s]) := by
      simp [consecSum]
    rw [h1, consecSum_append_last D (c :: rest) s (by simp)]
    simp [tourCost]
    ring

/-! ### C1: the fitness of `_evaluate` is the closed-tour length -/

/-- C1.  For every distance matrix `D`, start city `s` and nonempty
permutation `x`, the fitness computed by `TSPProblem._evaluate` — the
start leg `D[s][c_0]`, plus the consecutive legs `D[c_k][c_{k+1}]`, plus
the return leg `D[c_last][s]`, where `c_k = cities_to_visit[x[k]]` — is
exactly the spec's closed-tour length (one sum over all consecutive pairs
of `[s] + mapped cities + [s]` including the closing edge), with no
normalization or scaling. -/
theorem evaluate_eq_closed_tour_length (D : List (List ℚ)) (s : ℕ)
    (x : List ℕ) (hx : x ≠ []) :
    (TSPProblem.make D s).evaluate x =
      tourLengthSpec D
        (s :: decodeD (TSPProblem.make D s).cities_to_visit x ++ [s]) := by
  apply tourCost_eq_closed
  simp [decodeD, hx]

/-- Witness for C1 at `D = [[0,1],[2,0]]`, `s = 0`, `x = [0]`. -/
theorem evaluate_eq_closed_tour_length_witness :
    (TSPProblem.make [[0, 1], [2, 0]] 0).evaluate [0] =
      tourLengthSpec [[0, 1], [2, 0]]
        (0 :: decodeD (TSPProblem.make [[0, 1], [2, 0]] 0).cities_to_visit [0]
          ++ [0]) :=
  evaluate_eq_closed_tour_length [[0, 1], [2, 0]] 0 [0] (by simp)

/-! ### C2: decoding a valid permutation yields a well-formed tour -/

theorem map_getD_range {α : Type} (l : List α) (d : α) :
    (List.range l.length).map (fun i => l.getD i d) = l := by
  apply List.ext_getElem
  · simp
  · intro i h1 h2
    simp only [List.getElem_map, List.getElem_range]
    exact List.getD_eq_getElem _ _ h2

theorem citiesToVisit_eq_erase (s n : ℕ) :
    citiesToVisit s n = (List.range n).erase s := by
  rw [(List.nodup_range n).erase_eq_filter, citiesToVisit]
  exact List.filter_congr (fun a _ => by by_cases h : a = s <;> simp [h, bne])

theorem decodeD_perm (cv : List ℕ) (x : List ℕ)
    (hx : x.Perm (List.range cv.length)) : (decodeD cv x).Perm cv := by
  have h := hx.map (fun i => cv.getD i 0)
  rwa [map_getD_range cv 0] at h

/-- C2.  For every start city `s < N` and every permutation `x` of
`0..len(cities_to_visit)-1`, the decoded complete tour
`[s] + mapped cities + [s]` has length `N+1`, begins and ends with `s`,
contains every other city index exactly once and `s` exactly twice; and
`cities_to_visit` is the ascending list of all city indices except `s`. -/
theorem decode_complete_tour_wellformed (N s : ℕ) (x : List ℕ)
    (hs : s < N) (hx : x.Perm (List.range (citiesToVisit s N).length)) :
    (s :: decodeD (citiesToVisit s N) x ++ [s]).length = N + 1 ∧
    (s :: decodeD (citiesToVisit s N) x ++ [s]).head? = some s ∧
    (s :: decodeD (citiesToVisit s N) x ++ [s]).getLast? = some s ∧
    (s :: decodeD (citiesToVisit s N) x ++ [s]).count s = 2 ∧
    (∀ c, c < N → c ≠ s →
      (s :: decodeD (citiesToVisit s N) x ++ [s]).count c = 1) ∧
    List.Sorted (· < ·) (citiesToVisit s N) ∧
    (∀ i, i ∈ citiesToVisit s N ↔ i < N ∧ i ≠ s) := by
  have hmem : s ∈ List.range N := List.mem_range.mpr hs
  have hlen : (citiesToVisit s N).length = N - 1 := by
    rw [citiesToVisit_eq_erase, List.length_erase_of_mem hmem,
      List.length_range]
  have hperm : (decodeD (citiesToVisit s N) x).Perm (citiesToVisit s N) :=
    decodeD_perm _ _ hx
  have hnodup : (citiesToVisit s N).Nodup :=
    (List.nodup_range N).filter _
  have hcount_s : (citiesToVisit s N).count s = 0 := by
    rw [List.count_eq_zero]
    simp [citiesToVisit]
  refine ⟨?_, rfl, ?_, ?_, ?_, ?_, ?_⟩
  · have hxlen : x.length = N - 1 := by
      rw [hx.length_eq, List.length_range, hlen]
    simp only [List.length_cons, List.length_append, List.length_cons,
      List.length_nil, decodeD, List.length_map, hxlen]
    omega
  · rw [show (s :: decodeD (citiesToVisit s N) x ++ [s]) =
      (s :: decodeD (citiesToVisit s N) x) ++ [s] from rfl]
    exact List.getLast?_concat _
  · rw [show (s :: decodeD (citiesToVisit s N) x ++ [s]) =
      (s :: decodeD (citiesToVisit s N) x) ++ [s] from rfl]
    rw [List.count_append, List.count_cons_self, hperm.count_eq, hcount_s]
    simp
  · intro c hc hcs
    rw [show (s :: decodeD (citiesToVisit s N) x ++ [s]) =
      (s :: decodeD (citiesToVisit s N) x) ++ [s] from rfl]
    rw [List.count_append, List.count_cons_of_ne hcs, hperm.count_eq]
    rw [List.count_eq_one_of_mem hnodup (by simp [citiesToVisit]; omega)]
    try simp [hcs]
  · exact (List.sorted_lt_range N).filter _
  · intro i
    simp only [citiesToVisit, List.mem_filter, List.mem_range,
      decide_eq_true_eq]

/-- Witness for C2 at `N = 3`, `s = 1`, `x = [1, 0]`. -/
theorem decode_complete_tour_wellformed_witness :
    (1 :: decodeD (citiesToVisit 1 3) [1, 0] ++ [1]).length = 3 + 1 ∧
    (1 :: decodeD (citiesToVisit 1 3) [1, 0] ++ [1]).head? = some 1 ∧
    (1 :: decodeD (citiesToVisit 1 3) [1, 0] ++ [1]).getLast? = some 1 ∧
    (1 :: decodeD (citiesToVisit 1 3) [1, 0] ++ [1]).count 1 = 2 ∧
    (∀ c, c < 3 → c ≠ 1 →
      (1 :: decodeD (citiesToVisit 1 3) [1, 0] ++ [1]).count c = 1) ∧
    List.Sorted (· < ·) (citiesToVisit 1 3) ∧
    (∀ i, i ∈ citiesToVisit 1 3 ↔ i < 3 ∧ i ≠ 1) :=
  decode_complete_tour_wellformed 3 1 [1, 0] (by decide) (by decide)

/-! ### C6: what the decode comprehension actually rejects -/

theorem pyGet_eq_none_iff {α : Type} (l : List α) (i : ℤ) :
    pyGet l i = none ↔ i < -(l.length : ℤ) ∨ (l.length : ℤ) ≤ i := by
  have key : pyGet l i = none ↔
      ¬ (0 ≤ (if 0 ≤ i then i else (l.length : ℤ) + i) ∧
        (if 0 ≤ i then i else (l.length : ℤ) + i) < (l.length : ℤ)) := by
    unfold pyGet
    by_cases h : 0 ≤ (if 0 ≤ i then i else (l.length : ℤ) + i) ∧
        (if 0 ≤ i then i else (l.length : ℤ) + i) < (l.length : ℤ)
    · obtain ⟨h1, h2⟩ := h
      refine iff_of_false ?_ (not_not_intro ⟨h1, h2⟩)
      rw [if_pos ⟨h1, h2⟩]
      simp only [List.get?_eq_none]
      omega
    · simp [h]
  rw [key]
  by_cases h0 : 0 ≤ i
  · rw [if_pos h0]
    omega
  · rw [if_neg h0]
    omega

/-- C6, corrected.  The decode comprehension
`[self.cities_to_visit[int(i)] for i in x]` raises if and only if some
index of `x` is outside Python's indexing range of `cities_to_visit`
(`i < -len` or `i >= len`).  Bijectivity is never checked: a repeated or
missing in-range index silently yields a (possibly duplicated) tour. -/
theorem decode_fails_iff_index_out_of_range (cv : List ℕ) (x : List ℤ) :
    decodePy cv x = none ↔
      ∃ i ∈ x, i < -(cv.length : ℤ) ∨ (cv.length : ℤ) ≤ i := by
  induction x with
  | nil => simp [decodePy]
  | cons i rest ih =>
    by_cases hg : pyGet cv i = none
    · refine iff_of_true ?_ ⟨i, by simp, (pyGet_eq_none_iff cv i).mp hg⟩
      rcases hr : decodePy cv rest with _ | cs <;> simp [decodePy, hg, hr]
    · obtain ⟨c, hc⟩ := Option.ne_none_iff_exists'.mp hg
      by_cases hr : decodePy cv rest = none
      · obtain ⟨j, hj, ho⟩ := ih.mp hr
        exact iff_of_true (by simp [decodePy, hc, hr]) ⟨j, by simp [hj], ho⟩
      · obtain ⟨cs, hcs⟩ := Option.ne_none_iff_exists'.mp hr
        refine iff_of_false (by simp [decodePy, hc, hcs]) ?_
        rintro ⟨j, hj, ho⟩
        rcases List.mem_cons.mp hj with rfl | hjr
        · exact hg ((pyGet_eq_none_iff cv j).mpr ho)
        · exact hr (ih.mpr ⟨j, hjr, ho⟩)

/-- C6 counterexample: `[0, 0]` is not a bijection over `0..1`, yet on the
3-city instance with start city 0 (`cities_to_visit = [1, 2]`) decoding
does not fail — it silently produces the duplicated tour `[1, 1]`. -/
theorem decode_nonbijection_counterexample :
    ¬ (([0, 0] : List ℤ).Perm ((List.range 2).map Int.ofNat)) ∧
      decodePy (citiesToVisit 0 3) [0, 0] = some [1, 1] := by
  decide

/-! ### C10: the constructor never validates the start city -/

/-- C10.  For a start city outside `0..N-1` (negative or `≥ N`) the
`TSPProblem` constructor excludes nothing: `cities_to_visit` is all of
`range N`, so `n_var = N`, and a decoded complete tour places two
occurrences of the nonexistent start index around a permutation of all
`N` real cities. -/
theorem invalid_start_city_unvalidated (start : ℤ) (N : ℕ) (x : List ℕ)
    (hs : start < 0 ∨ (N : ℤ) ≤ start) (hx : x.Perm (List.range N)) :
    citiesToVisitZ start N = List.range N ∧
    (citiesToVisitZ start N).length = N ∧
    ((decodeD (citiesToVisitZ start N) x).map Int.ofNat).Perm
      ((List.range N).map Int.ofNat) ∧
    (start :: (decodeD (citiesToVisitZ start N) x).map Int.ofNat
      ++ [start]).count start = 2 := by
  have hcv : citiesToVisitZ start N = List.range N := by
    unfold citiesToVisitZ
    rw [List.filter_eq_self]
    intro a ha
    have := List.mem_range.mp ha
    simp only [decide_eq_true_eq]
    omega
  have hdec : (decodeD (citiesToVisitZ start N) x).Perm (List.range N) := by
    rw [hcv]
    exact decodeD_perm (List.range N) x (by rwa [List.length_range])
  have hmid : ((decodeD (citiesToVisitZ start N) x).map
      Int.ofNat).Perm ((List.range N).map Int.ofNat) :=
    hdec.map _
  refine ⟨hcv, by rw [hcv, List.length_range], hmid, ?_⟩
  have hnot : start ∉ (List.range N).map Int.ofNat := by
    simp only [List.mem_map, List.mem_range]
    rintro ⟨c, hc, rfl⟩
    simp only [Int.ofNat_eq_coe] at hs
    omega
  have hzero : ((decodeD (citiesToVisitZ start N) x).map
      Int.ofNat).count start = 0 := by
    rw [hmid.count_eq]
    exact List.count_eq_zero_of_not_mem hnot
  rw [show (start :: (decodeD (citiesToVisitZ start N) x).map
      Int.ofNat ++ [start]) =
      (start :: (decodeD (citiesToVisitZ start N) x).map
        Int.ofNat) ++ [start] from rfl]
  rw [List.count_append, List.count_cons_self, hzero]
  simp

/-- Witness for C10 at `start = 5`, `N = 3`, `x = [2, 0, 1]`. -/
theorem invalid_start_city_unvalidated_witness :
    citiesToVisitZ 5 3 = List.range 3 ∧
    (citiesToVisitZ 5 3).length = 3 ∧
    ((decodeD (citiesToVisitZ 5 3) [2, 0, 1]).map Int.ofNat).Perm
      ((List.range 3).map Int.ofNat) ∧
    ((5 : ℤ) :: (decodeD (citiesToVisitZ 5 3) [2, 0, 1]).map
      Int.ofNat ++ [(5 : ℤ)]).count 5 = 2 :=
  invalid_start_city_unvalidated 5 3 [2, 0, 1] (by decide) (by decide)

/-! ### C8: non-negativity and reversal symmetry of the tour length -/

theorem distance_nonneg (D : List (List ℚ))
    (hD : ∀ row ∈ D, ∀ v ∈ row, 0 ≤ v) (i j : ℕ) : 0 ≤ distance D i j := by
  unfold distance
  by_cases hi : i < D.length
  · rw [List.getD_eq_getElem D [] hi]
    by_cases hj : j < (D[i]).length
    · rw [List.getD_eq_getElem _ _ hj]
      exact hD _ (List.getElem_mem hi) _ (List.getElem_mem hj)
    · rw [List.getD_eq_default _ _ (by omega)]
  · rw [List.getD_eq_default D [] (by omega)]
    simp

theorem consecSum_nonneg (D : List (List ℚ))
    (h : ∀ i j, 0 ≤ distance D i j) : ∀ l : List ℕ, 0 ≤ consecSum D l
  | [] => le_refl 0
  | [_] => le_refl 0
  | a :: b :: rest =>
    add_nonneg (h a b) (consecSum_nonneg D h (b :: rest))

theorem headD_reverse (l : List ℕ) (d : ℕ) :
    l.reverse.headD d = l.getLastD d := by
  rw [List.headD_eq_head?, List.head?_reverse, List.getLastD_eq_getLast?]

theorem getLastD_reverse (l : List ℕ) (d : ℕ) :
    l.reverse.getLastD d = l.headD d := by
  rw [List.getLastD_eq_getLast?, List.getLast?_reverse, List.headD_eq_head?]

theorem consecSum_reverse (D : List (List ℚ))
    (hsym : ∀ i j, distance D i j = distance D j i) :
    ∀ l : List ℕ, consecSum D l.reverse = consecSum D l
  | [] => rfl
  | [_] => rfl
  | a :: b :: rest => by
    have ih := consecSum_reverse D hsym (b :: rest)
    have hrev : (a :: b :: rest).reverse = (b :: rest).reverse ++ [a] := by
      simp
    rw [hrev, consecSum_append_last D _ a (by simp), ih, getLastD_reverse]
    show consecSum D (b :: rest) + distance D b a =
      distance D a b + consecSum D (b :: rest)
    rw [hsym b a]
    ring

theorem distance_oob_left (D : List (List ℚ)) (i j : ℕ)
    (hi : D.length ≤ i) : distance D i j = 0 := by
  unfold distance
  rw [List.getD_eq_default D [] hi]
  simp

theorem distance_oob_right (D : List (List ℚ))
    (hsq : ∀ row ∈ D, row.length = D.length) (i j : ℕ)
    (hj : D.length ≤ j) : distance D i j = 0 := by
  unfold distance
  by_cases hi : i < D.length
  · rw [List.getD_eq_getElem D [] hi,
      List.getD_eq_default _ _ (by rw [hsq _ (List.getElem_mem hi)]; omega)]
  · rw [List.getD_eq_default D [] (by omega)]
    simp

theorem distance_symm_of_square (D : List (List ℚ))
    (hsq : ∀ row ∈ D, row.length = D.length)
    (hsym : ∀ i, i < D.length → ∀ j, j < D.length →
      distance D i j = distance D j i) :
    ∀ i j, distance D i j = distance D j i := by
  intro i j
  by_cases hi : i < D.length <;> by_cases hj : j < D.length
  · exact hsym i hi j hj
  · rw [distance_oob_right D hsq i j (by omega),
      distance_oob_left D j i (by omega)]
  · rw [distance_oob_left D i j (by omega),
      distance_oob_right D hsq j i (by omega)]
  · rw [distance_oob_left D i j (by omega),
      distance_oob_left D j i (by omega)]

theorem tourCost_reverse (D : List (List ℚ)) (s : ℕ)
    (hsym : ∀ i j, distance D i j = distance D j i) :
    ∀ t : List ℕ, tourCost D s t.reverse = tourCost D s t := by
  intro t
  match t with
  | [] => rfl
  | c :: rest =>
    unfold tourCost
    rw [consecSum_reverse D hsym, headD_reverse, getLastD_reverse]
    rw [hsym s ((c :: rest).getLastD 0), hsym ((c :: rest).headD 0) s]
    ring

/-- C8.  For a distance matrix with non-negative entries the evaluated
tour length is non-negative; and for a square matrix whose entries are
symmetric (`D[i][j] = D[j][i]` for all in-range `i, j`), evaluating the
reverse of a tour yields the same length. -/
theorem tour_length_nonneg_and_reverse_symm (D : List (List ℚ)) (s : ℕ)
    (t : List ℕ) :
    ((∀ row ∈ D, ∀ v ∈ row, 0 ≤ v) → 0 ≤ tourCost D s t) ∧
    ((∀ row ∈ D, row.length = D.length) →
      (∀ i, i < D.length → ∀ j, j < D.length →
        distance D i j = distance D j i) →
      tourCost D s t.reverse = tourCost D s t) := by
  constructor
  · intro hD
    have h := distance_nonneg D hD
    exact add_nonneg (add_nonneg (h s _) (consecSum_nonneg D h t)) (h _ s)
  · intro hsq hsym
    exact tourCost_reverse D s (distance_symm_of_square D hsq hsym) t

/-- Witness for C8 at `D = [[0, 2], [2, 0]]`, `s = 0`, `t = [1]`. -/
theorem tour_length_nonneg_and_reverse_symm_witness :
    0 ≤ tourCost [[0, 2], [2, 0]] 0 [1] ∧
      tourCost [[0, 2], [2, 0]] 0 ([1].reverse) =
        tourCost [[0, 2], [2, 0]] 0 [1] :=
  ⟨(tour_length_nonneg_and_reverse_symm [[0, 2], [2, 0]] 0 [1]).1
      (by decide),
    (tour_length_nonneg_and_reverse_symm [[0, 2], [2, 0]] 0 [1]).2
      (by decide) (by decide)⟩

/-! ### C5: a failing run aborts the whole comparison loop -/

/-- C5, amended: `compare_algorithms` provides no partial-failure
isolation — when the first solver call for a starting city raises, the
error propagates out of the loop at once: no sibling run is executed and
no partial results are returned. -/
theorem compare_failure_aborts_siblings
    (runGA runGA2 : ℕ → Except GAError RunResult) (c : ℕ) (rest : List ℕ)
    (e : GAError) (h : runGA c = .error e) :
    compareLoop runGA runGA2 (c :: rest) = .error e := by
  unfold compareLoop
  rw [h]

/-- Witness for the amended C5 at a concrete failing first run. -/
theorem compare_failure_aborts_siblings_witness :
    compareLoop
      (fun c => if c = 0 then .error .configuration
        else .ok ⟨"Genetic Algorithm (GA)", c, [c, 0, c], 2, 1⟩)
      (fun c => .ok ⟨"Modified Genetic Algorithm (GA-2)", c, [c, 0, c], 2, 1⟩)
      [0, 1] = .error .configuration :=
  compare_failure_aborts_siblings _ _ 0 [1] .configuration rfl

/-- C5 counterexample: the run for starting city 0 raises while the runs
for starting city 1 would succeed, yet `compare_algorithms`' loop returns
only the error — the sibling runs' results are not collected (and with
the actual embedded solvers, `pop_size = 1` likewise aborts the whole
comparison with no partial results). -/
theorem compare_no_partial_isolation_counterexample :
    (fun c => if c = 0 then (.error .configuration : Except GAError RunResult)
        else .ok ⟨"Genetic Algorithm (GA)", c, [c, 0, c], 2, 1⟩) 1 =
      .ok ⟨"Genetic Algorithm (GA)", 1, [1, 0, 1], 2, 1⟩ ∧
    compareLoop
      (fun c => if c = 0 then .error .configuration
        else .ok ⟨"Genetic Algorithm (GA)", c, [c, 0, c], 2, 1⟩)
      (fun c => .ok ⟨"Modified Genetic Algorithm (GA-2)", c, [c, 0, c], 2, 1⟩)
      [0, 1] = .error .configuration ∧
    compare_algorithms [[0, 1], [1, 0]] [0, 1] 1 5 = .error .configuration := by
  exact ⟨rfl, rfl, rfl⟩

/-! ### C9: both solver entry points are one parameterized algorithm -/

/-- C9.  The primary solver and the "modified" solver are instances of
one and the same parameterized algorithm: each equals the single
parameterized solve applied at its parameter tuple — the primary at
(pymoo default crossover probability, pymoo default mutation probability,
seed 42, label "Genetic Algorithm (GA)"), the variant at (0.95, 0.2, seed
123, label "Modified Genetic Algorithm (GA-2)") — and they differ in no
other structural way (same sampling, same order crossover operator, same
inversion mutation operator, same duplicate elimination, same
termination, same decode and fitness). -/
theorem primary_and_modified_are_one_algorithm (D : List (List ℚ))
    (start_city pop_size n_gen : ℕ) :
    solve_with_genetic_algorithm D start_city pop_size n_gen =
      genericSolve
        ⟨orderCrossoverDefaultProb, inversionMutationDefaultProb, 42,
          "Genetic Algorithm (GA)"⟩ D start_city pop_size n_gen ∧
    solve_with_modified_ga D start_city pop_size n_gen =
      genericSolve
        ⟨95 / 100, 2 / 10, 123, "Modified Genetic Algorithm (GA-2)"⟩
        D start_city pop_size n_gen :=
  ⟨rfl, rfl⟩

/-! ### C3: determinism of the solver -/

/-- C3.  Two invocations of the solver on one and the same configuration
tuple (distance matrix, start city, pop_size, n_gen, seed, operator
probabilities) produce identical results: the same best tour, the same
best distance and the same generation count.  In the embedding the only
randomness is the seeded generator threaded through the engine, exactly
as the spec requires. -/
theorem solver_deterministic (par : GAParams) (D : List (List ℚ))
    (start_city pop_size n_gen : ℕ) :
    sameOutcome (genericSolve par D start_city pop_size n_gen)
      (genericSolve par D start_city pop_size n_gen) := by
  cases h : genericSolve par D start_city pop_size n_gen with
  | error e => exact rfl
  | ok r => exact ⟨rfl, rfl, rfl⟩

/-! ### C4: malformed configurations fail fast -/

/-- C4.  For every malformed input — empty distance matrix,
`pop_size < 2` or `n_gen < 1` — the solver run fails with a Configuration
error before any generation is executed: the result is exactly the error
(no partial or garbage result) and zero generations are performed. -/
theorem malformed_config_fails_fast (par : GAParams) (D : List (List ℚ))
    (start_city pop_size n_gen : ℕ)
    (h : D = [] ∨ pop_size < 2 ∨ n_gen < 1) :
    genericSolve par D start_city pop_size n_gen = .error .configuration ∧
    generationsExecuted (genericSolve par D start_city pop_size n_gen) = 0 := by
  have hm : minimize (TSPProblem.make D start_city)
      ⟨pop_size, .permutationRandom, par.crossover_prob, par.mutation_prob,
        true⟩ n_gen par.seed = .error .configuration := by
    unfold minimize
    rw [if_pos ?_]
    rcases h with h | h | h
    · left
      simp [TSPProblem.make, h]
    · right; left; exact h
    · right; right; exact h
  constructor
  · simp only [genericSolve, hm]
  · simp only [generationsExecuted, genericSolve, hm]

/-- Witness for C4: `pop_size = 1` raises a Configuration error and
performs zero generations. -/
theorem malformed_config_fails_fast_witness :
    genericSolve
        ⟨orderCrossoverDefaultProb, inversionMutationDefaultProb, 42,
          "Genetic Algorithm (GA)"⟩ [[0, 1], [1, 0]] 0 1 5 =
      .error .configuration ∧
    generationsExecuted
      (genericSolve
        ⟨orderCrossoverDefaultProb, inversionMutationDefaultProb, 42,
          "Genetic Algorithm (GA)"⟩ [[0, 1], [1, 0]] 0 1 5) = 0 :=
  malformed_config_fails_fast _ [[0, 1], [1, 0]] 0 1 5
    (Or.inr (Or.inl (by decide)))

/-! ### C7: two-city instances — the engine on a single decision variable

On a 2-city instance `cities_to_visit` has one element, the only
permutation of `0..0` is `[0]`, and every operator of the engine maps
`[0]` back to `[0]`; the run result is forced whatever the configuration
and seed. -/

theorem randPerm_one (r : RNG) : randPerm 1 r = ([0], (r.natLt 1).2) := by
  simp [randPerm, drawAll, RNG.natLt, Nat.mod_one]

theorem sampleMany_one :
    ∀ (k : ℕ) (r : RNG), (sampleMany 1 k r).1 = List.replicate k [0]
  | 0, _ => rfl
  | k + 1, r => by
    show (randPerm 1 r).1 :: (sampleMany 1 k (randPerm 1 r).2).1 = _
    rw [randPerm_one, sampleMany_one k]
    rfl

theorem oxChild_single (i j : ℕ) : oxChild [0] [0] i j = [0] := by
  unfold oxChild
  cases i with
  | zero => simp [List.take_succ_cons]
  | succ i' => simp

theorem invertSegment_single (i j : ℕ) : invertSegment [0] i j = [0] := by
  unfold invertSegment
  cases i with
  | zero => simp [List.take_succ_cons]
  | succ i' => simp

theorem getD_mod_mem (pop : List Individual) (v : ℕ) (d : Individual)
    (h : 0 < pop.length) : pop.getD (v % pop.length) d ∈ pop := by
  rw [List.getD_eq_getElem _ _ (Nat.mod_lt v h)]
  exact List.getElem_mem _

theorem tournamentPick_mem (pop : List Individual) (r : RNG)
    (hne : pop ≠ []) : (tournamentPick pop r).1 ∈ pop := by
  have hl : 0 < pop.length := List.length_pos.mpr hne
  unfold tournamentPick RNG.natLt
  dsimp only
  split
  · exact getD_mod_mem pop _ _ hl
  · exact getD_mod_mem pop _ _ hl

theorem makeChild_const (p : TSPProblem) (alg : GAAlgorithm)
    (pop : List Individual) (r : RNG) (hne : pop ≠ [])
    (hall : ∀ m ∈ pop, m.perm = [0]) :
    (makeChild p alg pop r).1 = mkIndividual p [0] := by
  have e1 : (tournamentPick pop r).1.perm = [0] :=
    hall _ (tournamentPick_mem pop r hne)
  have e2 : (tournamentPick pop (tournamentPick pop r).2).1.perm = [0] :=
    hall _ (tournamentPick_mem pop _ hne)
  simp only [makeChild, e1, e2, oxChild_single, invertSegment_single,
    ite_self]

theorem makeChildren_const (p : TSPProblem) (alg : GAAlgorithm)
    (pop : List Individual) (hne : pop ≠ [])
    (hall : ∀ m ∈ pop, m.perm = [0]) :
    ∀ (k : ℕ) (r : RNG),
      (makeChildren p alg pop k r).1 =
        List.replicate k (mkIndividual p [0])
  | 0, _ => rfl
  | k + 1, r => by
    show (makeChild p alg pop r).1 ::
      (makeChildren p alg pop k (makeChild p alg pop r).2).1 = _
    rw [makeChild_const p alg pop r hne hall,
      makeChildren_const p alg pop hne hall k]
    rfl

theorem dedupPass_const (p : TSPProblem) (hn : p.n_var = 1) :
    ∀ (l : List Individual) (seen : List (List ℕ)) (r : RNG),
      (∀ m ∈ l, m = mkIndividual p [0]) →
      (dedupPass p l seen r).1 =
        List.replicate l.length (mkIndividual p [0])
  | [], _, _, _ => rfl
  | ind :: rest, seen, r, hall => by
    have hi : ind = mkIndividual p [0] := hall _ (by simp)
    have hfresh : (randPerm p.n_var r).1 = [0] := by
      rw [hn, randPerm_one]
    show (if seen.contains ind.perm then mkIndividual p (randPerm p.n_var r).1
        else ind) :: _ = _
    rw [hfresh, hi, ite_self]
    have htail := dedupPass_const p hn rest
      ((mkIndividual p [0]).perm :: seen)
      (if seen.contains (mkIndividual p [0]).perm then (randPerm p.n_var r).2
        else r)
      (fun m hm => hall m (by simp [hm]))
    rw [htail]
    rfl

theorem bestOf_replicate :
    ∀ (k : ℕ) (b : Individual), bestOf (List.replicate k b) b = b
  | 0, _ => rfl
  | k + 1, b => by
    show bestOf (b :: List.replicate k b) b = b
    unfold bestOf
    simp only [List.foldl_cons, ite_self]
    exact bestOf_replicate k b

theorem genStep_const (p : TSPProblem) (alg : GAAlgorithm)
    (st : EngineState) (hn : p.n_var = 1) (hps : 1 ≤ alg.pop_size)
    (hpop : st.pop = List.replicate alg.pop_size (mkIndividual p [0]))
    (hbest : st.best = mkIndividual p [0]) :
    (genStep p alg st).pop =
      List.replicate alg.pop_size (mkIndividual p [0]) ∧
    (genStep p alg st).best = mkIndividual p [0] := by
  have hne : st.pop ≠ [] := by
    rw [hpop]
    intro hcon
    have hlen := congrArg List.length hcon
    simp at hlen
    omega
  have hall : ∀ m ∈ st.pop, m.perm = [0] := by
    rw [hpop]
    intro m hm
    rw [List.eq_of_mem_replicate hm]
    rfl
  have hch : (makeChildren p alg st.pop alg.pop_size st.rng).1 =
      List.replicate alg.pop_size (mkIndividual p [0]) :=
    makeChildren_const p alg st.pop hne hall alg.pop_size st.rng
  by_cases hed : alg.eliminate_duplicates
  · have hdd : (dedupPass p (makeChildren p alg st.pop alg.pop_size st.rng).1
        [] (makeChildren p alg st.pop alg.pop_size st.rng).2).1 =
        List.replicate alg.pop_size (mkIndividual p [0]) := by
      rw [dedupPass_const p hn _ _ _
        (fun m hm => by rw [hch] at hm; exact List.eq_of_mem_replicate hm)]
      rw [hch, List.length_replicate]
    constructor
    · simp only [genStep, hed, reduceIte]
      exact hdd
    · simp only [genStep, hed, reduceIte]
      rw [hdd, hbest]
      exact bestOf_replicate _ _
  · constructor
    · simp only [genStep, hed, Bool.false_eq_true, reduceIte]
      exact hch
    · simp only [genStep, hed, Bool.false_eq_true, reduceIte]
      rw [hch, hbest]
      exact bestOf_replicate _ _

theorem evolveLoop_const (p : TSPProblem) (alg : GAAlgorithm)
    (hn : p.n_var = 1) (hps : 1 ≤ alg.pop_size) :
    ∀ (g : ℕ) (st : EngineState),
      st.pop = List.replicate alg.pop_size (mkIndividual p [0]) →
      st.best = mkIndividual p [0] →
      (evolveLoop p alg g st).best = mkIndividual p [0]
  | 0, _, _, hbest => hbest
  | g + 1, st, hpop, hbest => by
    have h := genStep_const p alg st hn hps hpop hbest
    exact evolveLoop_const p alg hn hps g (genStep p alg st) h.1 h.2

theorem minimize_single_var (p : TSPProblem) (alg : GAAlgorithm)
    (termination seed : ℕ) (hn : p.n_var = 1)
    (hD : p.distance_matrix.length ≠ 0) (hps : 2 ≤ alg.pop_size)
    (hng : 1 ≤ termination) :
    minimize p alg termination seed = .ok ⟨[0], p.evaluate [0]⟩ := by
  unfold minimize
  rw [if_neg (by push_neg; exact ⟨hD, by omega, by omega⟩)]
  have hsm : (sampleMany p.n_var alg.pop_size ⟨seed⟩).1.map
      (mkIndividual p) = List.replicate alg.pop_size (mkIndividual p [0]) := by
    rw [hn, sampleMany_one, List.map_replicate]
  have hhead : ((sampleMany p.n_var alg.pop_size ⟨seed⟩).1.map
      (mkIndividual p)).headD ⟨[], 0⟩ = mkIndividual p [0] := by
    rw [hsm]
    have h2 : alg.pop_size = (alg.pop_size - 1) + 1 := by omega
    rw [h2, List.replicate_succ]
    rfl
  have hbest0 : bestOf ((sampleMany p.n_var alg.pop_size ⟨seed⟩).1.map
      (mkIndividual p))
      (((sampleMany p.n_var alg.pop_size ⟨seed⟩).1.map
        (mkIndividual p)).headD ⟨[], 0⟩) = mkIndividual p [0] := by
    rw [hhead, hsm]
    exact bestOf_replicate _ _
  have hfin := evolveLoop_const p alg hn (by omega) termination
    ⟨(sampleMany p.n_var alg.pop_size ⟨seed⟩).1.map (mkIndividual p),
      bestOf ((sampleMany p.n_var alg.pop_size ⟨seed⟩).1.map (mkIndividual p))
        (((sampleMany p.n_var alg.pop_size ⟨seed⟩).1.map
          (mkIndividual p)).headD ⟨[], 0⟩),
      (sampleMany p.n_var alg.pop_size ⟨seed⟩).2⟩ hsm hbest0
  exact congrArg
    (fun b : Individual =>
      (Except.ok ⟨b.perm, b.fitness⟩ : Except GAError MinimizeResult)) hfin

theorem consecSum_singleton (D : List (List ℚ)) (a : ℕ) :
    consecSum D [a] = 0 := rfl

/-- C7, amended.  On every 2-city instance (start city `s`, other city
`1 - s`) and for every configuration with a valid population size and
generation budget, the solver's result tour is exactly `[s, 1-s, s]` and
its distance is `distance(s, 1-s) + distance(1-s, s)` — which equals
`2 * distance(s, 1-s)` exactly when those two entries are symmetric. -/
theorem two_city_solver_result (par : GAParams) (D : List (List ℚ))
    (s pop_size n_gen : ℕ) (hN : D.length = 2) (hs : s < 2)
    (hps : 2 ≤ pop_size) (hng : 1 ≤ n_gen) :
    genericSolve par D s pop_size n_gen =
      .ok ⟨par.label, s, [s, 1 - s, s],
        distance D s (1 - s) + distance D (1 - s) s, n_gen⟩ ∧
    (distance D s (1 - s) = distance D (1 - s) s →
      distance D s (1 - s) + distance D (1 - s) s =
        2 * distance D s (1 - s)) := by
  have hcv : citiesToVisit s D.length = [1 - s] := by
    rw [hN]
    have hs01 : s = 0 ∨ s = 1 := by omega
    rcases hs01 with rfl | rfl <;> decide
  have hnv : (TSPProblem.make D s).n_var = 1 := by
    show (citiesToVisit s D.length).length = 1
    rw [hcv]
    rfl
  have hmin := minimize_single_var (TSPProblem.make D s)
    ⟨pop_size, .permutationRandom, par.crossover_prob, par.mutation_prob,
      true⟩ n_gen par.seed hnv (by show D.length ≠ 0; omega) hps hng
  constructor
  · simp only [genericSolve, hmin]
    have hmk : (TSPProblem.make D s).cities_to_visit = [1 - s] := hcv
    rw [hmk]
    have heval : (TSPProblem.make D s).evaluate [0] =
        distance D s (1 - s) + distance D (1 - s) s := by
      show tourCost D s (decodeD (citiesToVisit s D.length) [0]) = _
      rw [hcv]
      show tourCost D s [1 - s] = _
      simp [tourCost, consecSum_singleton]
    rw [heval]
    rfl
  · intro h
    rw [h]
    ring

/-- Witness for the amended C7 at `D = [[0, 2], [2, 0]]`, `s = 0`,
population 2, one generation, the primary parameter tuple. -/
theorem two_city_solver_result_witness :
    genericSolve
        ⟨orderCrossoverDefaultProb, inversionMutationDefaultProb, 42,
          "Genetic Algorithm (GA)"⟩ [[0, 2], [2, 0]] 0 2 1 =
      .ok ⟨"Genetic Algorithm (GA)", 0, [0, 1 - 0, 0],
        distance [[0, 2], [2, 0]] 0 (1 - 0) +
          distance [[0, 2], [2, 0]] (1 - 0) 0, 1⟩ ∧
    (distance [[0, 2], [2, 0]] 0 (1 - 0) =
        distance [[0, 2], [2, 0]] (1 - 0) 0 →
      distance [[0, 2], [2, 0]] 0 (1 - 0) +
          distance [[0, 2], [2, 0]] (1 - 0) 0 =
        2 * distance [[0, 2], [2, 0]] 0 (1 - 0)) :=
  two_city_solver_result _ [[0, 2], [2, 0]] 0 2 1 rfl (by omega) (by omega)
    (by omega)

/-- C7 counterexample: on the asymmetric 2-city instance
`D = [[0, 1], [2, 0]]` with start city 0 the solver's distance is
`D[0][1] + D[1][0] = 3`, not `2 * distance(0, 1) = 2` as the claim
states for every 2-city instance. -/
theorem two_city_double_distance_counterexample :
    genericSolve ⟨9 / 10, 1, 42, "Genetic Algorithm (GA)"⟩ [[0, 1], [2, 0]]
        0 2 1 =
      .ok ⟨"Genetic Algorithm (GA)", 0, [0, 1, 0], 3, 1⟩ ∧
    (3 : ℚ) ≠ 2 * distance [[0, 1], [2, 0]] 0 1 := by
  constructor
  · have hmin := minimize_single_var (TSPProblem.make [[0, 1], [2, 0]] 0)
      ⟨2, .permutationRandom, 9 / 10, 1, true⟩ 1 42 (by decide) (by decide)
      (by decide) (by omega)
    simp only [genericSolve, hmin]
    have h1 : decodeD (TSPProblem.make [[0, 1], [2, 0]] 0).cities_to_visit
        [0] = [1] := rfl
    have h2 : (TSPProblem.make [[0, 1], [2, 0]] 0).evaluate [0] = 3 := by
      show tourCost [[0, 1], [2, 0]] 0 (decodeD (citiesToVisit 0 2) [0]) = 3
      show distance [[0, 1], [2, 0]] 0 1 + consecSum [[0, 1], [2, 0]] [1]
        + distance [[0, 1], [2, 0]] 1 0 = 3
      rw [consecSum_singleton]
      show (1 : ℚ) + 0 + 2 = 3
      norm_num
    rw [h1, h2]
    rfl
  · have h : distance [[0, 1], [2, 0]] 0 1 = 1 := rfl
    rw [h]
    norm_num

end TSP
